import Mathlib

/-!
Shallow embedding of the Algo_trading_bot backtest engine
(src/backtest.py, src/range_breakout.py, src/research_algo.py).

Prices and money are modelled as rationals; float rounding is ignored but
the comparison logic (including math.isclose's relative tolerance) is kept
exactly.  Time-of-day labels are minutes since midnight (09:30 = 570,
09:45 = 585, 11:30 = 690); within one trading day the pandas date_local
ordering coincides with time-of-day ordering, which this model uses.
-/

/-- One OHLC bar of a session. `t` is the local time-of-day label in
minutes since midnight. -/
structure Bar where
  t : ℕ
  open_ : ℚ
  high : ℚ
  low : ℚ
  close : ℚ
deriving Repr, DecidableEq

-- ---------------------------------------------------------------------
-- Configuration constants of src/backtest.py (lines 27-69).
-- ---------------------------------------------------------------------

def FIRST_BAR_TIME : ℕ := 570

def ENTRY_TIME : ℕ := 585

def EXIT_TIME : ℕ := 690

def STOP_PCT_DEFAULT : ℚ := 5/1000

def START_EQUITY : ℚ := 100

def ALLOC_PCT : ℚ := 1

def FRACTIONAL_SHARES : Bool := true

def MIN_FRACTIONAL_SHARES : ℚ := 1/10000

def SLIPPAGE_PER_SHARE : ℚ := 0

def EXTRA_FEES_PER_SHARE : ℚ := 0

def PRICING_PLAN : String := "pro_fixed"

def PF_RATE_PER_SHARE : ℚ := 5/1000

def PF_MIN_PER_ORDER : ℚ := 1

def PF_MAX_RATE_OF_TRADE : ℚ := 1/100

def PT_MIN_PER_ORDER : ℚ := 35/100

def PT_MAX_RATE_OF_TRADE : ℚ := 1/100

/-- The tiered commission table (backtest.py lines 59-65).  A `none`
threshold stands for float("inf"), which every volume compares `<=` to. -/
def PT_TIERS : List (Option ℚ × ℚ) :=
  [(some 300000, 35/10000),
   (some 3000000, 20/10000),
   (some 20000000, 15/10000),
   (some 100000000, 10/10000),
   (none, 5/10000)]

def LITE_RATE_PER_SHARE : ℚ := 2/1000

def LITE_MIN_PER_ORDER : ℚ := 3/1000

-- ---------------------------------------------------------------------
-- Signal generation (the three strategy variants).
-- ---------------------------------------------------------------------

/-- Relative tolerance of Python math.isclose (default rel_tol = 1e-9). -/
def relTol : ℚ := 1/1000000000

/-- Absolute tolerance of Python math.isclose (default abs_tol = 0). -/
def absTol : ℚ := 0

/-- Python math.isclose(a, b): abs(a-b) <= max(rel_tol*max(abs(a),abs(b)), abs_tol). -/
def isclose (a b : ℚ) : Bool :=
  decide (|a - b| ≤ max (relTol * max |a| |b|) absTol)

/-- The per-session signal of backtest.py (run, lines 193-207): a doji test
by math.isclose first, then close-vs-open direction. -/
def backtestSignal (f_open f_close : ℚ) : String :=
  if isclose f_close f_open then "skip"
  else if f_close > f_open then "long" else "short"

/-- Direction of range_breakout.py line 33: LONG iff close > open, else SHORT. -/
def rbDirection (open_ close : ℚ) : String :=
  if close > open_ then "LONG" else "SHORT"

/-- Direction sign of research_algo.py compute_daily_points (lines 62-71). -/
def raSign (o c : ℚ) : ℤ :=
  if c > o then 1 else if c < o then -1 else 0

-- ---------------------------------------------------------------------
-- Cost model (backtest.py lines 113-144).
-- ---------------------------------------------------------------------

/-- The loop body of rate_for_tiered (backtest.py lines 113-117): first tier
whose threshold the volume is <= wins; the fallback after the loop returns
the last tier rate. -/
def rate_loop (v : ℚ) : List (Option ℚ × ℚ) → ℚ
  | [] => ((PT_TIERS.getLast?).map Prod.snd).getD 0
  | (some thr, r) :: rest => if v ≤ thr then r else rate_loop v rest
  | (none, r) :: _ => r

def rate_for_tiered (monthly_shares_before : ℚ) : ℚ :=
  rate_loop monthly_shares_before PT_TIERS

/-- commission_one_side (backtest.py lines 119-138); the unknown-plan
ValueError is modelled as Except.error. -/
def commission_one_side (shares price : ℚ) (plan : String)
    (monthly_shares_before : ℚ) : Except String ℚ :=
  if shares ≤ 0 ∨ price ≤ 0 then .ok 0
  else
    let trade_value := price * shares
    if plan = "pro_fixed" then
      .ok (min (max (PF_RATE_PER_SHARE * shares) PF_MIN_PER_ORDER)
               (PF_MAX_RATE_OF_TRADE * trade_value))
    else if plan = "pro_tiered" then
      let rate := rate_for_tiered monthly_shares_before
      .ok (min (max (rate * shares) PT_MIN_PER_ORDER)
               (PT_MAX_RATE_OF_TRADE * trade_value))
    else if plan = "lite" then
      .ok (max (LITE_RATE_PER_SHARE * shares) LITE_MIN_PER_ORDER)
    else .error ("Unknown PRICING_PLAN " ++ plan)

/-- full_side_cost (backtest.py lines 140-144): commission plus per-share
slippage and pass-through fees. -/
def full_side_cost (shares price : ℚ) (plan : String)
    (monthly_shares_before : ℚ) : Except String ℚ :=
  (commission_one_side shares price plan monthly_shares_before).map
    (fun comm => comm + SLIPPAGE_PER_SHARE * shares + EXTRA_FEES_PER_SHARE * shares)

/-- Specification-style reading of the tier table: the rate of the first
tier, in ascending threshold order, whose threshold is >= the volume (the
unbounded tier accepting everything).  Used to compare rate_for_tiered
against the spec wording. -/
def tierRateSpec (v : ℚ) : ℚ :=
  match PT_TIERS.find? (fun p =>
      match p.1 with
      | some thr => decide (v ≤ thr)
      | none => true) with
  | some p => p.2
  | none => 0

-- ---------------------------------------------------------------------
-- Position sizing (backtest.py lines 146-153).
-- ---------------------------------------------------------------------

/-- shares_for_trade.  Python int() truncates toward zero, which on the
positive quantities reachable here coincides with the floor used below. -/
def shares_for_trade (equity price : ℚ) : ℚ :=
  let dollars := equity * ALLOC_PCT
  if dollars ≤ 0 ∨ price ≤ 0 then 0
  else
    let raw := dollars / price
    if FRACTIONAL_SHARES = true then max raw 0
    else ((max (⌊raw⌋) 0 : ℤ) : ℚ)

-- ---------------------------------------------------------------------
-- Exit simulation: the stop scan of backtest.py lines 244-255.
-- ---------------------------------------------------------------------

/-- The per-bar loop of backtest.py run (lines 244-255): default time exit,
overridden by the first breaching bar with fill exactly at the stop level. -/
def scanStop (signal : String) (stop_level exit_1130 : ℚ) :
    List Bar → ℚ × String
  | [] => (exit_1130, "time_exit")
  | b :: rest =>
    if signal = "long" then
      if b.low ≤ stop_level then (stop_level, "stop_hit")
      else scanStop signal stop_level exit_1130 rest
    else
      if stop_level ≤ b.high then (stop_level, "stop_hit")
      else scanStop signal stop_level exit_1130 rest

/-- A bar breaches the stop: long when its low reaches down to the stop
level, short when its high reaches up to it. -/
def breachesStop (signal : String) (stop_level : ℚ) (b : Bar) : Bool :=
  if signal = "long" then decide (b.low ≤ stop_level)
  else decide (stop_level ≤ b.high)

/-- Specification-style exit: find the first breaching bar; on a breach the
fill is exactly the stop level with reason stop_hit, otherwise the deadline
close with reason time_exit.  Compared against scanStop. -/
def firstBreachExit (signal : String) (stop_level exit_1130 : ℚ)
    (bars : List Bar) : ℚ × String :=
  match bars.find? (breachesStop signal stop_level) with
  | some _ => (stop_level, "stop_hit")
  | none => (exit_1130, "time_exit")

-- ---------------------------------------------------------------------
-- The per-session state machine of backtest.py run (lines 155-286).
-- ---------------------------------------------------------------------

/-- One ledger row (the dict appended to rows in backtest.py run).  Fields
that the source sets to np.nan are Options. -/
structure Row where
  signal : String
  first_bar_open : Option ℚ
  first_bar_close : Option ℚ
  entry_price : Option ℚ
  exit_price : Option ℚ
  exit_reason : String
  shares : ℚ
  gross_pnl : ℚ
  entry_cost : ℚ
  exit_cost : ℚ
  total_cost : ℚ
  net_pnl : ℚ
  start_equity : ℚ
  end_equity : ℚ
  month_key : ℕ
  note : String
deriving Repr, DecidableEq

/-- One input trading day: its calendar-month key and its bars sorted by
timestamp. -/
structure Day where
  month : ℕ
  bars : List Bar
deriving Repr, DecidableEq

/-- full_side_cost evaluated at the configured plan "pro_fixed" (which
never raises); proved equal to full_side_cost below (full_side_cost_pf_ok). -/
def fullSideCostPF (shares price : ℚ) : ℚ :=
  (if shares ≤ 0 ∨ price ≤ 0 then 0
   else min (max (PF_RATE_PER_SHARE * shares) PF_MIN_PER_ORDER)
            (PF_MAX_RATE_OF_TRADE * (price * shares)))
  + SLIPPAGE_PER_SHARE * shares + EXTRA_FEES_PER_SHARE * shares

/-- The loop body of backtest.py run (lines 164-286) for one day.  Inputs:
stop percentage, running equity, the cumulative monthly volume for this
day's month, the month key and the day's bars.  Output: the ledger row,
the new equity and the new monthly volume for that month. -/
def processDay (stop_pct equity mvol : ℚ) (month_key : ℕ)
    (g : List Bar) : Row × ℚ × ℚ :=
  match g.find? (fun b => b.t == FIRST_BAR_TIME),
        g.find? (fun b => b.t == ENTRY_TIME),
        g.find? (fun b => b.t == EXIT_TIME) with
  | some fb, some en, some ex =>
    let f_open := fb.open_
    let f_close := fb.close
    let entry := en.close
    let exit_1130 := ex.close
    if isclose f_close f_open then
      (⟨"skip", some f_open, some f_close, none, none, "doji_skip", 0,
        0, 0, 0, 0, 0, equity, equity, month_key, "Doji first bar"⟩,
       equity, mvol)
    else
      let signal := if f_close > f_open then "long" else "short"
      let dir : ℚ := if signal = "long" then 1 else -1
      let sh := shares_for_trade equity entry
      if FRACTIONAL_SHARES = true ∧ sh < MIN_FRACTIONAL_SHARES then
        (⟨"skip", some f_open, some f_close, some entry, none, "too_small", 0,
          0, 0, 0, 0, 0, equity, equity, month_key,
          "Equity too small for min fractional lot"⟩,
         equity, mvol)
      else
        let entry_cost := fullSideCostPF sh entry
        let mv1 := mvol + sh
        let stop_level := if signal = "long" then entry * (1 - stop_pct)
                          else entry * (1 + stop_pct)
        let subsequent := g.filter (fun b =>
          decide (ENTRY_TIME < b.t) && decide (b.t ≤ EXIT_TIME))
        let scanned := scanStop signal stop_level exit_1130 subsequent
        let exit_price := scanned.1
        let exit_reason := scanned.2
        let gross_points := dir * (exit_price - entry)
        let gross_pnl_dol := sh * gross_points
        let exit_cost := fullSideCostPF sh exit_price
        let mv2 := mv1 + sh
        let total_cost := entry_cost + exit_cost
        let net_pnl_dol := gross_pnl_dol - total_cost
        let equity2 := equity + net_pnl_dol
        (⟨signal, some f_open, some f_close, some entry, some exit_price,
          exit_reason, sh, gross_pnl_dol, entry_cost, exit_cost, total_cost,
          net_pnl_dol, equity, equity2, month_key, ""⟩,
         equity2, mv2)
  | _, _, _ =>
    (⟨"skip", none, none, none, none, "missing", 0,
      0, 0, 0, 0, 0, equity, equity, month_key, "Missing 09:30/09:45/11:30"⟩,
     equity, mvol)

/-- The day loop of backtest.py run, threading equity and per-month
volumes (the dict monthly_vol, modelled as a total map defaulting to 0,
which absorbs the explicit 0.0 initialisation of line 171). -/
def runDays (stop_pct : ℚ) (equity : ℚ) (mv : ℕ → ℚ) :
    List Day → List Row × ℚ × (ℕ → ℚ)
  | [] => ([], equity, mv)
  | d :: ds =>
    let step := processDay stop_pct equity (mv d.month) d.month d.bars
    let rest := runDays stop_pct step.2.1
      (Function.update mv d.month step.2.2) ds
    (step.1 :: rest.1, rest.2)

/-- The whole simulation from the configured starting equity and empty
monthly-volume state. -/
def runBacktest (stop_pct : ℚ) (days : List Day) :
    List Row × ℚ × (ℕ → ℚ) :=
  runDays stop_pct START_EQUITY (fun _ => 0) days

-- ---------------------------------------------------------------------
-- Summary aggregation (backtest.py lines 288-306).
-- ---------------------------------------------------------------------

/-- The rows counted as trades: signal in ["long","short"] (line 293). -/
def validTrades (rows : List Row) : List Row :=
  rows.filter (fun r => r.signal = "long" ∨ r.signal = "short")

/-- win_rate_% (line 297): NaN (none) when the trade count is zero. -/
def winRate (rows : List Row) : Option ℚ :=
  let n := (validTrades rows).length
  if n = 0 then none
  else some (((((validTrades rows).filter (fun r => 0 < r.net_pnl)).length : ℚ)
      / (n : ℚ)) * 100)

/-- The equity curve (lines 289-290): end_equity is set on every row, so
the where/ffill of the source is the identity here. -/
def equityCurve (rows : List Row) : List ℚ :=
  rows.map (fun r => r.end_equity)

/-- Running maximum, given the maximum so far (pandas cummax). -/
def cummaxFrom (m : ℚ) : List ℚ → List ℚ
  | [] => []
  | x :: xs => (max m x) :: cummaxFrom (max m x) xs

def cummax : List ℚ → List ℚ
  | [] => []
  | x :: xs => x :: cummaxFrom x xs

/-- max_drawdown_% (lines 302-304): min over the curve of
equity/rollmax - 1, times 100; NaN (none) only when there are no rows. -/
def maxDrawdown (rows : List Row) : Option ℚ :=
  let curve := equityCurve rows
  let dd := List.zipWith (fun e m => e / m - 1) curve (cummax curve)
  match dd with
  | [] => none
  | x :: xs => some ((xs.foldl min x) * 100)

-- ---------------------------------------------------------------------
-- The range-breakout variant (src/range_breakout.py).
-- ---------------------------------------------------------------------

/-- Outcome row of one range_breakout.py day (lines 65-75, before the
2-decimal display rounding of the spreadsheet). -/
structure RbOutcome where
  direction : String
  entry : ℚ
  range_x : ℚ
  tp : ℚ
  sl : ℚ
  result : String
  gain : ℚ
deriving Repr, DecidableEq

/-- The session loop of range_breakout.py (lines 47-63): target checked
before stop on the same bar; a day with no hit keeps result NO HIT and
gain 0. -/
def rbScan (direction : String) (x tp sl : ℚ) : List Bar → String × ℚ
  | [] => ("NO HIT", 0)
  | b :: rest =>
    if direction = "LONG" then
      if tp ≤ b.high then ("HIT TP", x)
      else if b.low ≤ sl then ("HIT SL", -x)
      else rbScan direction x tp sl rest
    else
      if b.low ≤ tp then ("HIT TP", x)
      else if sl ≤ b.high then ("HIT SL", -x)
      else rbScan direction x tp sl rest

/-- A bar breaches either the target or the stop of range_breakout.py. -/
def rbBreaches (direction : String) (tp sl : ℚ) (b : Bar) : Bool :=
  if direction = "LONG" then decide (tp ≤ b.high) || decide (b.low ≤ sl)
  else decide (b.low ≤ tp) || decide (sl ≤ b.high)

/-- Specification-style reading of the range-breakout scan: first breaching
bar decides, target before stop on that bar; no breach gives NO HIT with
gain 0. -/
def rbFirstBreach (direction : String) (x tp sl : ℚ)
    (bars : List Bar) : String × ℚ :=
  match bars.find? (rbBreaches direction tp sl) with
  | some b =>
    if (if direction = "LONG" then decide (tp ≤ b.high)
        else decide (b.low ≤ tp)) = true
    then ("HIT TP", x) else ("HIT SL", -x)
  | none => ("NO HIT", 0)

def RB_ENTRY_TIME : ℕ := 570

def RB_EXIT_TIME : ℕ := 690

/-- One day of range_breakout.py (lines 20-75): none when the 09:30 bar is
missing (the source does continue and records no row). -/
def rbDay (g : List Bar) : Option RbOutcome :=
  match g.find? (fun b => b.t == RB_ENTRY_TIME) with
  | none => none
  | some first =>
    let x := first.high - first.low
    let direction := rbDirection first.open_ first.close
    let entry := first.close
    let tp := if direction = "LONG" then entry + x else entry - x
    let sl := if direction = "LONG" then entry - x else entry + x
    let session := g.filter (fun b =>
      decide (RB_ENTRY_TIME < b.t) && decide (b.t ≤ RB_EXIT_TIME))
    let scanned := rbScan direction x tp sl session
    some ⟨direction, entry, x, tp, sl, scanned.1, scanned.2⟩


/-- The replay property of the Ledger: each row starts at the running
equity, ends at start plus net P&L, and hands its ending equity to the
next row.  Written from the spec wording of the equity-compounding claim. -/
def ledgerChained (e0 : ℚ) : List Row → Prop
  | [] => True
  | r :: rs => r.start_equity = e0 ∧
      r.end_equity = r.start_equity + r.net_pnl ∧
      ledgerChained r.end_equity rs

-- ---------------------------------------------------------------------
-- Helper lemmas.
-- ---------------------------------------------------------------------

/-- full_side_cost at the configured plan "pro_fixed" never raises and
equals its inlined evaluation fullSideCostPF used inside processDay. -/
lemma full_side_cost_pf_ok (s p mv : ℚ) :
    full_side_cost s p "pro_fixed" mv = .ok (fullSideCostPF s p) := by
  unfold full_side_cost commission_one_side fullSideCostPF
  by_cases h : s ≤ 0 ∨ p ≤ 0
  · simp [h, Except.map]
  · simp [h, Except.map]

lemma relWidth_nonneg (o c : ℚ) :
    0 ≤ max (relTol * max |c| |o|) absTol := by
  have h1 : (0:ℚ) ≤ relTol * max |c| |o| :=
    mul_nonneg (by norm_num [relTol]) (le_trans (abs_nonneg c) (le_max_left _ _))
  exact le_trans h1 (le_max_left _ _)

-- ---------------------------------------------------------------------
-- C1: per-session direction rules.
-- ---------------------------------------------------------------------

/-- C1 counterexample: the claim says a reference bar with close == open
always yields signal skip ("doji") and close > open always yields long.
The range-breakout variant maps an equal bar to SHORT, and the backtest
engine's tolerance-based doji test maps a strictly green bar
(c = 1 + 1e-10 > 1 = o) to skip. -/
theorem C1_direction_counterexample :
    rbDirection 1 1 = "SHORT" ∧
    backtestSignal 1 (1 + 1/10000000000) = "skip" ∧
    (1 : ℚ) < 1 + 1/10000000000 := by
  refine ⟨rfl, ?_, by norm_num⟩
  norm_num [backtestSignal, isclose, relTol, absTol, abs_of_nonneg]

/-- C1 (amended): in backtest.py the doji test is tolerance based
(math.isclose with rel_tol 1e-9): skip iff |c-o| is within the tolerance,
long iff c > o outside the tolerance, short iff c < o outside it; in
research_algo.py the comparison is exact (sign 1, -1, 0 for green, red, doji);
in range_breakout.py close > open gives LONG and anything else, an exact
doji included, gives SHORT (no skip). -/
theorem C1_direction_amended : ∀ o c : ℚ,
    (backtestSignal o c = "skip" ↔
      |c - o| ≤ max (relTol * max |c| |o|) absTol) ∧
    (backtestSignal o c = "long" ↔
      (o < c ∧ ¬ |c - o| ≤ max (relTol * max |c| |o|) absTol)) ∧
    (backtestSignal o c = "short" ↔
      (c < o ∧ ¬ |c - o| ≤ max (relTol * max |c| |o|) absTol)) ∧
    (raSign o c = 1 ↔ o < c) ∧
    (raSign o c = -1 ↔ c < o) ∧
    (raSign o c = 0 ↔ c = o) ∧
    (rbDirection o c = "LONG" ↔ o < c) ∧
    (rbDirection o c = "SHORT" ↔ c ≤ o) := by
  intro o c
  refine ⟨?_, ?_, ?_, ?_, ?_, ?_, ?_, ?_⟩
  · simp only [backtestSignal, isclose, decide_eq_true_eq]
    split_ifs with h1 h2
    · exact iff_of_true rfl h1
    · exact iff_of_false (by decide) h1
    · exact iff_of_false (by decide) h1
  · simp only [backtestSignal, isclose, decide_eq_true_eq]
    split_ifs with h1 h2
    · exact iff_of_false (by decide) (fun hc => hc.2 h1)
    · exact iff_of_true rfl ⟨h2, h1⟩
    · exact iff_of_false (by decide) (fun hc => h2 hc.1)
  · simp only [backtestSignal, isclose, decide_eq_true_eq]
    split_ifs with h1 h2
    · exact iff_of_false (by decide) (fun hc => hc.2 h1)
    · exact iff_of_false (by decide) (fun hc => lt_asymm h2 hc.1)
    · refine iff_of_true rfl ⟨?_, h1⟩
      rcases lt_trichotomy c o with h | h | h
      · exact h
      · exact absurd (by simpa [h] using relWidth_nonneg o c) h1
      · exact absurd h h2
  · unfold raSign
    split_ifs with h1 h2
    · exact iff_of_true rfl h1
    · exact iff_of_false (by decide) (lt_asymm h2)
    · exact iff_of_false (by decide) h1
  · unfold raSign
    split_ifs with h1 h2
    · exact iff_of_false (by decide) (lt_asymm h1)
    · exact iff_of_true rfl h2
    · exact iff_of_false (by decide) h2
  · unfold raSign
    split_ifs with h1 h2
    · exact iff_of_false (by decide) (ne_of_gt h1)
    · exact iff_of_false (by decide) (ne_of_lt h2)
    · exact iff_of_true rfl (le_antisymm (not_lt.1 h1) (not_lt.1 h2))
  · unfold rbDirection
    split_ifs with h1
    · exact iff_of_true rfl h1
    · exact iff_of_false (by decide) h1
  · unfold rbDirection
    split_ifs with h1
    · exact iff_of_false (by decide) (not_le.2 h1)
    · exact iff_of_true rfl (not_lt.1 h1)

-- ---------------------------------------------------------------------
-- C4: volume-tier selection.
-- ---------------------------------------------------------------------

/-- C4: for every monthly volume v >= 0 the tiered plan picks the rate of
the first tier (ascending thresholds, last unbounded) whose threshold is
>= v, and the selected rate is non-increasing in v. -/
theorem C4_tier_selection :
    (∀ v : ℚ, 0 ≤ v → rate_for_tiered v = tierRateSpec v) ∧
    (∀ v1 v2 : ℚ, 0 ≤ v1 → v1 ≤ v2 →
      rate_for_tiered v2 ≤ rate_for_tiered v1) := by
  constructor
  · intro v _
    simp only [rate_for_tiered, tierRateSpec, PT_TIERS, rate_loop, List.find?]
    by_cases h1 : v ≤ 300000
    · simp [h1]
    · by_cases h2 : v ≤ 3000000
      · simp [h1, h2]
      · by_cases h3 : v ≤ 20000000
        · simp [h1, h2, h3]
        · by_cases h4 : v ≤ 100000000
          · simp [h1, h2, h3, h4]
          · simp [h1, h2, h3, h4]
  · intro v1 v2 _ h12
    simp only [rate_for_tiered, PT_TIERS, rate_loop]
    split_ifs <;> norm_num <;> linarith

/-- Witness for C4_tier_selection at volumes 0 and 400000 (the second
crosses the first tier threshold). -/
theorem C4_tier_selection_witness :
    rate_for_tiered 0 = tierRateSpec 0 ∧
    rate_for_tiered 400000 ≤ rate_for_tiered 0 :=
  ⟨C4_tier_selection.1 0 le_rfl,
   C4_tier_selection.2 0 400000 le_rfl (by norm_num)⟩

-- ---------------------------------------------------------------------
-- C6: unknown pricing plan.
-- ---------------------------------------------------------------------

/-- C6 counterexample: the claim says an unknown plan identifier is a
fatal error for all share quantities and prices, but with shares = 0 the
cost model returns 0 before ever looking at the plan. -/
theorem C6_unknown_plan_counterexample :
    commission_one_side 0 1 "bogus" 0 = .ok 0 ∧
    ∀ msg, commission_one_side 0 1 "bogus" 0 ≠ .error msg := by
  refine ⟨rfl, fun msg h => ?_⟩
  rw [show commission_one_side 0 1 "bogus" 0 = .ok 0 from rfl] at h
  exact Except.noConfusion h

/-- C6 (amended): for every plan identifier other than pro_fixed,
pro_tiered and lite, the cost model raises the unknown-plan configuration
error whenever shares > 0 and price > 0 (with shares <= 0 or price <= 0 it
returns 0 without validating the plan). -/
theorem C6_unknown_plan_amended :
    ∀ (plan : String) (s p mv : ℚ),
      plan ≠ "pro_fixed" → plan ≠ "pro_tiered" → plan ≠ "lite" →
      0 < s → 0 < p →
      commission_one_side s p plan mv =
        .error ("Unknown PRICING_PLAN " ++ plan) := by
  intro plan s p mv h1 h2 h3 hs hp
  have hno : ¬ (s ≤ 0 ∨ p ≤ 0) := by
    push_neg
    exact ⟨hs, hp⟩
  simp [commission_one_side, hno, h1, h2, h3]

/-- Witness for C6_unknown_plan_amended at plan "bogus", shares 1, price 1. -/
theorem C6_unknown_plan_witness :
    commission_one_side 1 1 "bogus" 0 =
      .error ("Unknown PRICING_PLAN " ++ "bogus") :=
  C6_unknown_plan_amended "bogus" 1 1 0 (by decide) (by decide) (by decide)
    (by norm_num) (by norm_num)

-- ---------------------------------------------------------------------
-- C7: non-positive shares or price give zero cost.
-- ---------------------------------------------------------------------

/-- C7: for shares <= 0 or price <= 0 the one-sided total cost
(commission + slippage + pass-through fees) is 0 under every plan and
every monthly volume. -/
theorem C7_noop_trade_cost :
    ∀ (s p mv : ℚ) (plan : String), s ≤ 0 ∨ p ≤ 0 →
      full_side_cost s p plan mv = .ok 0 := by
  intro s p mv plan h
  simp [full_side_cost, commission_one_side, h, Except.map,
    SLIPPAGE_PER_SHARE, EXTRA_FEES_PER_SHARE]

/-- Witness for C7_noop_trade_cost at shares 0, price 1, plan lite. -/
theorem C7_noop_trade_cost_witness :
    full_side_cost 0 1 "lite" 0 = .ok 0 :=
  C7_noop_trade_cost 0 1 0 "lite" (Or.inl le_rfl)

-- ---------------------------------------------------------------------
-- C8: the 1% commission cap on the fixed and tiered plans.
-- ---------------------------------------------------------------------

/-- C8: for shares > 0 and price > 0 the commission under pro_fixed and
pro_tiered never exceeds cap_fraction (= 1/100) times price times shares,
for every monthly volume. -/
theorem C8_commission_cap :
    ∀ (s p mv : ℚ), 0 < s → 0 < p →
      (∀ c, commission_one_side s p "pro_fixed" mv = .ok c →
        c ≤ (1/100) * (p * s)) ∧
      (∀ c, commission_one_side s p "pro_tiered" mv = .ok c →
        c ≤ (1/100) * (p * s)) := by
  intro s p mv hs hp
  have hno : ¬ (s ≤ 0 ∨ p ≤ 0) := by
    push_neg
    exact ⟨hs, hp⟩
  constructor
  · intro c hc
    have hev : commission_one_side s p "pro_fixed" mv =
        .ok (min (max (PF_RATE_PER_SHARE * s) PF_MIN_PER_ORDER)
                 (PF_MAX_RATE_OF_TRADE * (p * s))) := by
      simp [commission_one_side, hno]
    rw [hev] at hc
    simp only [Except.ok.injEq] at hc
    rw [← hc]
    calc min (max (PF_RATE_PER_SHARE * s) PF_MIN_PER_ORDER)
          (PF_MAX_RATE_OF_TRADE * (p * s))
        ≤ PF_MAX_RATE_OF_TRADE * (p * s) := min_le_right _ _
      _ = (1/100) * (p * s) := by norm_num [PF_MAX_RATE_OF_TRADE]
  · intro c hc
    have hev : commission_one_side s p "pro_tiered" mv =
        .ok (min (max (rate_for_tiered mv * s) PT_MIN_PER_ORDER)
                 (PT_MAX_RATE_OF_TRADE * (p * s))) := by
      simp [commission_one_side, hno]
    rw [hev] at hc
    simp only [Except.ok.injEq] at hc
    rw [← hc]
    calc min (max (rate_for_tiered mv * s) PT_MIN_PER_ORDER)
          (PT_MAX_RATE_OF_TRADE * (p * s))
        ≤ PT_MAX_RATE_OF_TRADE * (p * s) := min_le_right _ _
      _ = (1/100) * (p * s) := by norm_num [PT_MAX_RATE_OF_TRADE]

/-- Witness for C8_commission_cap at shares 1, price 1, volume 0: the
fixed-plan commission (capped to 1/100) meets the bound. -/
theorem C8_commission_cap_witness :
    (1/100 : ℚ) ≤ (1/100) * ((1:ℚ) * 1) :=
  (C8_commission_cap 1 1 0 (by norm_num) (by norm_num)).1 (1/100)
    (by norm_num [commission_one_side, PF_RATE_PER_SHARE, PF_MIN_PER_ORDER,
      PF_MAX_RATE_OF_TRADE])

-- ---------------------------------------------------------------------
-- C2: exit simulation.
-- ---------------------------------------------------------------------

lemma scanStop_eq_firstBreach (sig : String) (st ex : ℚ) :
    ∀ bars : List Bar, scanStop sig st ex bars = firstBreachExit sig st ex bars := by
  intro bars
  induction bars with
  | nil => rfl
  | cons b rest ih =>
    by_cases hsig : sig = "long"
    · by_cases hb : b.low ≤ st
      · simp [scanStop, firstBreachExit, List.find?, breachesStop, hsig, hb]
      · simp only [scanStop, firstBreachExit, List.find?, breachesStop, hsig,
          if_pos, if_neg hb, decide_eq_true_eq]
        simpa [firstBreachExit, breachesStop, hsig, hb] using ih
    · by_cases hb : st ≤ b.high
      · simp [scanStop, firstBreachExit, List.find?, breachesStop, hsig, hb]
      · simp only [scanStop, firstBreachExit, List.find?, breachesStop, hsig,
          if_neg, decide_eq_true_eq]
        simpa [firstBreachExit, breachesStop, hsig, hb] using ih

lemma rbScan_eq_rbFirstBreach (dir : String) (x tp sl : ℚ) :
    ∀ bars : List Bar, rbScan dir x tp sl bars = rbFirstBreach dir x tp sl bars := by
  intro bars
  induction bars with
  | nil => rfl
  | cons b rest ih =>
    by_cases hdir : dir = "LONG"
    · by_cases htp : tp ≤ b.high
      · simp [rbScan, rbFirstBreach, List.find?, rbBreaches, hdir, htp]
      · by_cases hsl : b.low ≤ sl
        · simp [rbScan, rbFirstBreach, List.find?, rbBreaches, hdir, htp, hsl]
        · simp only [rbScan, hdir, if_pos, if_neg htp, if_neg hsl]
          simpa [rbFirstBreach, rbBreaches, hdir, htp, hsl] using ih
    · by_cases htp : b.low ≤ tp
      · simp [rbScan, rbFirstBreach, List.find?, rbBreaches, hdir, htp]
      · by_cases hsl : sl ≤ b.high
        · simp [rbScan, rbFirstBreach, List.find?, rbBreaches, hdir, htp, hsl]
        · simp only [rbScan, hdir, if_neg, if_neg htp, if_neg hsl]
          simpa [rbFirstBreach, rbBreaches, hdir, htp, hsl] using ih

/-- C2 counterexample: the claim says that when no bar breaches, the trade
exits at the exit-deadline bar's close (reason time_exit).  In the
range-breakout variant a no-breach day is recorded as NO HIT with gain 0:
on this day (entry 101, deadline close 203/2) an exit at the deadline
close would have gained 203/2 - 101 = 1/2, not 0. -/
theorem C2_exit_scan_counterexample :
    rbDay [⟨570, 100, 101, 100, 101⟩, ⟨690, 101, 203/2, 201/2, 203/2⟩] =
      some ⟨"LONG", 101, 1, 102, 100, "NO HIT", 0⟩ ∧
    (203/2 : ℚ) - 101 ≠ 0 := by
  constructor
  · norm_num [rbDay, rbDirection, rbScan, List.find?, List.filter,
      RB_ENTRY_TIME, RB_EXIT_TIME]
  · norm_num

/-- C2 (amended): in every non-skipped session the trade exits at the
first bar after the entry time and up to the deadline that breaches
(long: low <= stop, short: high >= stop; in the range-breakout variant the
target is checked before the stop on the same bar), with the fill exactly
at the breached level and reason stop_hit (HIT TP / HIT SL with gain +-x
in the range-breakout variant); with no breach, backtest.py exits at the
deadline close with reason time_exit, while range_breakout.py records
NO HIT with gain 0 instead of an exit at the deadline close. -/
theorem C2_exit_scan_amended :
    (∀ (sig : String) (st ex : ℚ) (bars : List Bar),
      scanStop sig st ex bars = firstBreachExit sig st ex bars) ∧
    (∀ (dir : String) (x tp sl : ℚ) (bars : List Bar),
      rbScan dir x tp sl bars = rbFirstBreach dir x tp sl bars) :=
  ⟨fun sig st ex bars => scanStop_eq_firstBreach sig st ex bars,
   fun dir x tp sl bars => rbScan_eq_rbFirstBreach dir x tp sl bars⟩

-- ---------------------------------------------------------------------
-- Facts about processDay shared by the ledger-level claims.
-- ---------------------------------------------------------------------

lemma shares_for_trade_nonpos (e p : ℚ) (he : e ≤ 0) :
    shares_for_trade e p = 0 := by
  unfold shares_for_trade
  have h : e * ALLOC_PCT ≤ 0 := by
    simpa [ALLOC_PCT] using he
  simp [h]

/-- Branch analysis of processDay: the row starts at the incoming equity,
its ending equity is start plus net, the outgoing equity is the row's
ending equity, skip rows change nothing, every signal is skip, long or
short, and non-positive equity forces a skip. -/
lemma processDay_props (sp e mvol : ℚ) (mk : ℕ) (g : List Bar) :
    (processDay sp e mvol mk g).1.start_equity = e ∧
    (processDay sp e mvol mk g).1.end_equity =
      (processDay sp e mvol mk g).1.start_equity +
      (processDay sp e mvol mk g).1.net_pnl ∧
    (processDay sp e mvol mk g).2.1 = (processDay sp e mvol mk g).1.end_equity ∧
    ((processDay sp e mvol mk g).1.signal = "skip" →
      (processDay sp e mvol mk g).1.net_pnl = 0 ∧
      (processDay sp e mvol mk g).2.1 = e ∧
      (processDay sp e mvol mk g).2.2 = mvol ∧
      (processDay sp e mvol mk g).1.shares = 0) ∧
    ((processDay sp e mvol mk g).1.signal = "skip" ∨
      (processDay sp e mvol mk g).1.signal = "long" ∨
      (processDay sp e mvol mk g).1.signal = "short") ∧
    (e ≤ 0 → (processDay sp e mvol mk g).1.signal = "skip" ∧
      (processDay sp e mvol mk g).1.shares = 0 ∧
      (processDay sp e mvol mk g).2.1 = e ∧
      (processDay sp e mvol mk g).2.2 = mvol) := by
  unfold processDay
  cases hfb : g.find? (fun b => b.t == FIRST_BAR_TIME) <;>
    cases hen : g.find? (fun b => b.t == ENTRY_TIME) <;>
      cases hex : g.find? (fun b => b.t == EXIT_TIME) <;>
        try exact ⟨rfl, by simp, rfl,
          fun _ => ⟨rfl, rfl, rfl, rfl⟩, Or.inl rfl,
          fun _ => ⟨rfl, rfl, rfl, rfl⟩⟩
  rename_i fb en ex
  dsimp only
  by_cases hdoji : isclose fb.close fb.open_ = true
  · rw [if_pos hdoji]
    exact ⟨rfl, by simp, rfl, fun _ => ⟨rfl, rfl, rfl, rfl⟩, Or.inl rfl,
      fun _ => ⟨rfl, rfl, rfl, rfl⟩⟩
  · rw [if_neg hdoji]
    by_cases hsmall : FRACTIONAL_SHARES = true ∧
        shares_for_trade e en.close < MIN_FRACTIONAL_SHARES
    · rw [if_pos hsmall]
      exact ⟨rfl, by simp, rfl, fun _ => ⟨rfl, rfl, rfl, rfl⟩, Or.inl rfl,
        fun _ => ⟨rfl, rfl, rfl, rfl⟩⟩
    · rw [if_neg hsmall]
      refine ⟨rfl, rfl, rfl, ?_, ?_, ?_⟩
      · by_cases hgt : fb.close > fb.open_ <;> simp [hgt]
      · by_cases hgt : fb.close > fb.open_ <;> simp [hgt]
      · intro he
        exfalso
        exact hsmall ⟨rfl, by
          rw [shares_for_trade_nonpos e en.close he]
          norm_num [MIN_FRACTIONAL_SHARES]⟩

-- ---------------------------------------------------------------------
-- Run-level lemmas.
-- ---------------------------------------------------------------------

lemma runDays_chained (sp : ℚ) : ∀ (ds : List Day) (e : ℚ) (mv : ℕ → ℚ),
    ledgerChained e (runDays sp e mv ds).1 := by
  intro ds
  induction ds with
  | nil => intro e mv; trivial
  | cons d ds ih =>
    intro e mv
    obtain ⟨h1, h2, h3, -, -, -⟩ :=
      processDay_props sp e (mv d.month) d.month d.bars
    simp only [runDays]
    refine ⟨h1, h2, ?_⟩
    rw [← h3]
    exact ih _ _

lemma runDays_frozen (sp : ℚ) : ∀ (ds : List Day) (e : ℚ) (mv : ℕ → ℚ),
    e ≤ 0 → (runDays sp e mv ds).2.1 = e := by
  intro ds
  induction ds with
  | nil => intro e mv _; rfl
  | cons d ds ih =>
    intro e mv he
    obtain ⟨-, -, -, -, -, h6⟩ :=
      processDay_props sp e (mv d.month) d.month d.bars
    obtain ⟨-, -, heq, -⟩ := h6 he
    simp only [runDays]
    rw [heq]
    exact ih e _ he

lemma runDays_mem_props (sp : ℚ) : ∀ (ds : List Day) (e : ℚ) (mv : ℕ → ℚ)
    (r : Row), r ∈ (runDays sp e mv ds).1 →
    (r.signal = "skip" ∨ r.signal = "long" ∨ r.signal = "short") ∧
    (r.signal = "skip" → r.net_pnl = 0) := by
  intro ds
  induction ds with
  | nil => intro e mv r hr; simp [runDays] at hr
  | cons d ds ih =>
    intro e mv r hr
    simp only [runDays, List.mem_cons] at hr
    rcases hr with h | h
    · obtain ⟨-, -, -, h4, h5, -⟩ :=
        processDay_props sp e (mv d.month) d.month d.bars
      subst h
      exact ⟨h5, fun hs => (h4 hs).1⟩
    · exact ih _ _ r h

lemma ledgerChained_const : ∀ (rows : List Row) (e : ℚ),
    ledgerChained e rows → (∀ r ∈ rows, r.net_pnl = 0) →
    ∀ r ∈ rows, r.end_equity = e := by
  intro rows
  induction rows with
  | nil => intro e _ _ r hr; simp at hr
  | cons r0 rs ih =>
    intro e hch hz r hr
    obtain ⟨hs, he, hrest⟩ := hch
    have h0 : r0.end_equity = e := by
      rw [he, hs, hz r0 (List.mem_cons_self r0 rs), add_zero]
    rcases List.mem_cons.1 hr with h | h
    · rw [h]; exact h0
    · exact h0 ▸ ih r0.end_equity hrest
        (fun x hx => hz x (List.mem_cons_of_mem r0 hx)) r h

lemma cummaxFrom_const (e : ℚ) : ∀ l : List ℚ,
    (∀ x ∈ l, x = e) → cummaxFrom e l = l := by
  intro l
  induction l with
  | nil => intro; rfl
  | cons x xs ih =>
    intro h
    have hx : x = e := h x (List.mem_cons_self x xs)
    rw [cummaxFrom, hx, max_self]
    rw [ih (fun y hy => h y (List.mem_cons_of_mem x hy))]

lemma zip_self_dd_zero (e : ℚ) (he : e ≠ 0) : ∀ l : List ℚ,
    (∀ x ∈ l, x = e) →
    ∀ y ∈ List.zipWith (fun a m => a / m - 1) l l, y = 0 := by
  intro l
  induction l with
  | nil => intro _ y hy; simp at hy
  | cons x xs ih =>
    intro h y hy
    rw [List.zipWith_cons_cons, List.mem_cons] at hy
    rcases hy with hy | hy
    · rw [hy, h x (List.mem_cons_self x xs), div_self he]
      ring
    · exact ih (fun z hz => h z (List.mem_cons_of_mem x hz)) y hy

lemma foldl_min_zero : ∀ l : List ℚ, (∀ x ∈ l, x = 0) →
    l.foldl min 0 = 0 := by
  intro l
  induction l with
  | nil => intro; rfl
  | cons x xs ih =>
    intro h
    rw [List.foldl_cons, h x (List.mem_cons_self x xs), min_self]
    exact ih (fun y hy => h y (List.mem_cons_of_mem x hy))

-- ---------------------------------------------------------------------
-- C3: equity replay.
-- ---------------------------------------------------------------------

/-- C3: every ledger row satisfies end_equity = start_equity + net_pnl,
the first row starts at the starting equity, and each row's starting
equity is the previous row's ending equity, so the running sum of net
P&L from the starting equity reproduces every recorded ending equity. -/
theorem C3_equity_replay : ∀ (sp : ℚ) (days : List Day),
    ledgerChained START_EQUITY (runBacktest sp days).1 :=
  fun sp days => runDays_chained sp days START_EQUITY (fun _ => 0)

-- ---------------------------------------------------------------------
-- C5: skip sessions are frame-preserving.
-- ---------------------------------------------------------------------

/-- C5: a session recorded with signal skip has net P&L 0 and ending
equity equal to starting equity, and leaves the run state (equity and
monthly volume) unchanged; only the ledger row is added. -/
theorem C5_skip_frame : ∀ (sp e mvol : ℚ) (mk : ℕ) (g : List Bar),
    (processDay sp e mvol mk g).1.signal = "skip" →
    (processDay sp e mvol mk g).1.net_pnl = 0 ∧
    (processDay sp e mvol mk g).1.end_equity =
      (processDay sp e mvol mk g).1.start_equity ∧
    (processDay sp e mvol mk g).2.1 = e ∧
    (processDay sp e mvol mk g).2.2 = mvol := by
  intro sp e mvol mk g hs
  obtain ⟨h1, h2, h3, h4, -, -⟩ := processDay_props sp e mvol mk g
  obtain ⟨hz, he, hm, -⟩ := h4 hs
  exact ⟨hz, by rw [h2, hz, add_zero], he, hm⟩

/-- Witness for C5_skip_frame: a day with no bars is recorded as a skip
(missing bars) and changes nothing. -/
theorem C5_skip_frame_witness :
    (processDay 1 100 0 0 []).1.net_pnl = 0 ∧
    (processDay 1 100 0 0 []).1.end_equity =
      (processDay 1 100 0 0 []).1.start_equity ∧
    (processDay 1 100 0 0 []).2.1 = 100 ∧
    (processDay 1 100 0 0 []).2.2 = 0 :=
  C5_skip_frame 1 100 0 0 [] rfl

-- ---------------------------------------------------------------------
-- C10: non-positive equity freezes the run.
-- ---------------------------------------------------------------------

/-- C10: fractional shares are enabled with a positive minimum lot; every
session entered with equity <= 0 is sized to 0 shares and recorded as a
skip with equity and monthly volume unchanged, and hence the remaining
run never changes equity again. -/
theorem C10_nonpositive_equity_frozen :
    FRACTIONAL_SHARES = true ∧ 0 < MIN_FRACTIONAL_SHARES ∧
    (∀ (sp e mvol : ℚ) (mk : ℕ) (g : List Bar), e ≤ 0 →
      (processDay sp e mvol mk g).1.signal = "skip" ∧
      (processDay sp e mvol mk g).1.shares = 0 ∧
      (processDay sp e mvol mk g).2.1 = e ∧
      (processDay sp e mvol mk g).2.2 = mvol) ∧
    (∀ (sp : ℚ) (ds : List Day) (e : ℚ) (mv : ℕ → ℚ), e ≤ 0 →
      (runDays sp e mv ds).2.1 = e) := by
  refine ⟨rfl, by norm_num [MIN_FRACTIONAL_SHARES], ?_, ?_⟩
  · intro sp e mvol mk g he
    obtain ⟨-, -, -, -, -, h6⟩ := processDay_props sp e mvol mk g
    exact h6 he
  · intro sp ds e mv he
    exact runDays_frozen sp ds e mv he

/-- Witness for C10_nonpositive_equity_frozen at equity -1: a full-bar
green day is still skipped and a one-day run leaves equity at -1. -/
theorem C10_nonpositive_equity_frozen_witness :
    (processDay 1 (-1 : ℚ) 0 0
      [⟨570, 1, 2, 1, 2⟩, ⟨585, 2, 2, 2, 2⟩, ⟨690, 2, 2, 2, 2⟩]).1.signal =
      "skip" ∧
    (runDays 1 (-1 : ℚ) (fun _ => 0) [⟨0, []⟩]).2.1 = -1 :=
  ⟨(C10_nonpositive_equity_frozen.2.2.1 1 (-1) 0 0
      [⟨570, 1, 2, 1, 2⟩, ⟨585, 2, 2, 2, 2⟩, ⟨690, 2, 2, 2, 2⟩]
      (by norm_num)).1,
   C10_nonpositive_equity_frozen.2.2.2 1 [⟨0, []⟩] (-1) (fun _ => 0)
      (by norm_num)⟩

-- ---------------------------------------------------------------------
-- C9: summary fields with zero trades.
-- ---------------------------------------------------------------------

/-- C9 counterexample: the claim says both win rate and maximum drawdown
are reported as undefined when there are zero non-skip trades.  Running
on a single bar-less day gives one skip row: the win rate is indeed
undefined, but the drawdown is computed over the flat equity curve and
reported as 0, not as undefined. -/
theorem C9_zero_trades_counterexample :
    winRate (runBacktest 1 [⟨0, []⟩]).1 = none ∧
    maxDrawdown (runBacktest 1 [⟨0, []⟩]).1 = some 0 := by
  constructor
  · rfl
  · norm_num [maxDrawdown, runBacktest, runDays, processDay, equityCurve,
      cummax, cummaxFrom, List.find?, START_EQUITY]

/-- C9 (amended): with zero non-skip trades the win rate is reported as
undefined; the maximum drawdown is undefined only when the ledger has no
rows at all, and with at least one (necessarily skip) row it is reported
as 0 over the flat equity curve. -/
theorem C9_zero_trades_amended : ∀ (sp : ℚ) (days : List Day),
    validTrades (runBacktest sp days).1 = [] →
    winRate (runBacktest sp days).1 = none ∧
    ((runBacktest sp days).1 = [] →
      maxDrawdown (runBacktest sp days).1 = none) ∧
    ((runBacktest sp days).1 ≠ [] →
      maxDrawdown (runBacktest sp days).1 = some 0) := by
  intro sp days hv
  refine ⟨?_, ?_, ?_⟩
  · simp [winRate, hv]
  · intro h
    rw [maxDrawdown, equityCurve, h]
    rfl
  · intro hne
    have hmem : ∀ r ∈ (runBacktest sp days).1, r.net_pnl = 0 := by
      intro r hr
      have hp := runDays_mem_props sp days START_EQUITY (fun _ => 0) r hr
      have hnl : ¬ (r.signal = "long" ∨ r.signal = "short") := by
        intro hlr
        have hmemv : r ∈ validTrades (runBacktest sp days).1 :=
          List.mem_filter.2 ⟨hr, by simpa using hlr⟩
        rw [hv] at hmemv
        simp at hmemv
      rcases hp.1 with h | h | h
      · exact hp.2 h
      · exact absurd (Or.inl h) hnl
      · exact absurd (Or.inr h) hnl
    have hend : ∀ r ∈ (runBacktest sp days).1, r.end_equity = START_EQUITY :=
      ledgerChained_const (runBacktest sp days).1 START_EQUITY
        (runDays_chained sp days START_EQUITY (fun _ => 0)) hmem
    have hcurve : ∀ x ∈ equityCurve (runBacktest sp days).1,
        x = START_EQUITY := by
      intro x hx
      obtain ⟨r, hr, hxe⟩ := List.mem_map.1 hx
      rw [← hxe]
      exact hend r hr
    rcases hc : equityCurve (runBacktest sp days).1 with _ | ⟨c0, crest⟩
    · rw [equityCurve] at hc
      exact absurd (List.map_eq_nil_iff.1 hc) hne
    · have hc0 : c0 = START_EQUITY :=
        hcurve c0 (by rw [hc]; exact List.mem_cons_self c0 crest)
      have hcr : ∀ x ∈ crest, x = START_EQUITY := fun x hx =>
        hcurve x (by rw [hc]; exact List.mem_cons_of_mem c0 hx)
      rw [maxDrawdown, hc, hc0]
      rw [cummax, cummaxFrom_const START_EQUITY crest hcr,
        List.zipWith_cons_cons]
      have hdd0 : START_EQUITY / START_EQUITY - 1 = 0 := by
        norm_num [START_EQUITY]
      rw [hdd0]
      have hz : List.foldl min 0
          (List.zipWith (fun a m => a / m - 1) crest crest) = 0 :=
        foldl_min_zero _
          (zip_self_dd_zero START_EQUITY (by norm_num [START_EQUITY]) crest hcr)
      show some (List.foldl min 0
        (List.zipWith (fun a m => a / m - 1) crest crest) * 100) = some 0
      rw [hz]
      norm_num

/-- Witness for C9_zero_trades_amended on a one-day ledger whose only row
is a missing-bars skip. -/
theorem C9_zero_trades_amended_witness :
    winRate (runBacktest 1 [⟨1, []⟩]).1 = none ∧
    maxDrawdown (runBacktest 1 [⟨1, []⟩]).1 = some 0 :=
  ⟨(C9_zero_trades_amended 1 [⟨1, []⟩] rfl).1,
   (C9_zero_trades_amended 1 [⟨1, []⟩] rfl).2.2
     (by simp [runBacktest, runDays])⟩
